import Mathlib

/-!
# Verification of `internal/parser/type.go` (go-envparser)

Shallow embedding of the metadata-extraction core: the Go file reads a
source file, parses it with `go/parser`, walks the AST with `ast.Inspect`
searching for a struct type declaration whose name matches a requested
name, and normalizes the struct's fields into `Field` records.

The embedding mirrors the Go code at the level the walker consumes it:
- a field's declared type appears as the string `types.ExprString` renders
  (the Go code only ever consumes that rendered string);
- a field's struct tag appears as the key/value pairs that
  `reflect.StructTag.Lookup` would find in it (the Go code only performs
  a single `Lookup("env")` on it);
- the AST surface is the part `ast.Inspect` can reach that the callback
  reacts to: `TypeSpec` nodes (grouped in `type (...)` declarations),
  which may occur at the top level or nested inside function bodies,
  since `ast.Inspect` traverses the entire file including bodies.
-/

set_option autoImplicit false

namespace GoEnvParser

/-- White-space characters of Go `unicode.IsSpace` in the Latin-1 range
(space, tab, newline, vertical tab, form feed, carriage return, NEL,
no-break space).  `strings.TrimSpace` trims exactly these from both ends
for the strings arising here. -/
def isSpaceGo (c : Char) : Bool :=
  c == ' ' || c == '\t' || c == '\n' || c == Char.ofNat 11 || c == Char.ofNat 12 ||
    c == '\r' || c == Char.ofNat 0x85 || c == Char.ofNat 0xA0

/-- Go `strings.TrimSpace` on the character list of a string. -/
def trimSpaceChars (s : List Char) : List Char :=
  ((s.dropWhile isSpaceGo).reverse.dropWhile isSpaceGo).reverse

/-- Go `strings.TrimLeft s cutset`: removes ALL leading characters that are
contained in the cutset (a character set, not a prefix to match once). -/
def trimLeftCutset (cutset : List Char) (s : List Char) : List Char :=
  s.dropWhile (fun c => cutset.contains c)

/-- `cleanTypeStr` from type.go:
`strings.TrimSpace`, then `strings.TrimLeft(typ, "*")`,
then `strings.TrimLeft(typ, "[]")`. -/
def cleanTypeStr (typ : String) : String :=
  String.mk (trimLeftCutset ['[', ']'] (trimLeftCutset ['*'] (trimSpaceChars typ.data)))

/-- `isPointer` from type.go: `len(typeName) > 0 && typeName[0] == '*'`. -/
def isPointer (typeName : String) : Bool :=
  match typeName.data with
  | [] => false
  | c :: _ => c == '*'

/-- `isArray` from type.go: `len(typeName) > 2 && typeName[:2] == "[]"`.
(The two compared bytes are ASCII, so byte-level and character-level
comparison agree.) -/
def isArray (typeName : String) : Bool :=
  decide (2 < typeName.data.length) && (typeName.data.take 2 == ['[', ']'])

/-- Go `reflect.StructTag.Lookup`, acting on the key/value pairs the tag
string holds: returns the value of the first pair whose key matches. -/
def tagLookup (tags : List (String × String)) (key : String) : Option String :=
  match tags with
  | [] => none
  | (k, v) :: rest => if k == key then some v else tagLookup rest key

/-- Go `strings.ToUpper`, character-wise (`Char.toUpper` upper-cases the
ASCII letters, which matches Go `strings.ToUpper` on the ASCII identifiers
and type strings arising here). -/
def toUpperGo (s : String) : String :=
  String.mk (s.data.map Char.toUpper)

/-- `getEnvSourceTag` from type.go: value of the `env` tag key if present,
otherwise `strings.ToUpper(fieldName)`. -/
def getEnvSourceTag (tags : List (String × String)) (fieldName : String) : String :=
  match tagLookup tags "env" with
  | none => toUpperGo fieldName
  | some tag => tag

/-- `Field` from type.go (the Go field `Type` is spelled `Typ` here because
`Type` is reserved in Lean). -/
structure Field where
  Name : String
  Typ : String
  EnvTag : String
  IsPointer : Bool
  IsArray : Bool
deriving DecidableEq

/-- One entry of an `ast.StructType`'s field list (`*ast.Field`), at the
surface the Go code consumes: the list of declared names (empty for an
anonymous/embedded field), the rendered type string
(`types.ExprString(field.Type)`), and the tag's key/value pairs
(empty when `field.Tag == nil` or the tag holds no pairs). -/
structure FieldNode where
  names : List String
  typeStr : String
  tag : List (String × String)
deriving DecidableEq

/-- The records the loop body of `getFields` appends for one `*ast.Field`:
one anonymous record when `len(field.Names) == 0`, else one record per
declared name. -/
def fieldRecords (field : FieldNode) : List Field :=
  if field.names.isEmpty then
    [{ Name := "",
       Typ := cleanTypeStr field.typeStr,
       EnvTag := getEnvSourceTag field.tag field.typeStr,
       IsPointer := isPointer field.typeStr,
       IsArray := isArray field.typeStr }]
  else
    field.names.map (fun fieldName =>
      { Name := fieldName,
        Typ := cleanTypeStr field.typeStr,
        IsPointer := isPointer field.typeStr,
        IsArray := isArray field.typeStr,
        EnvTag := getEnvSourceTag field.tag fieldName })

/-- `getFields` from type.go: fold over the struct's field list, appending
the records of each field declaration in order. -/
def getFields (node : List FieldNode) : List Field :=
  node.foldl (fun fields field => fields ++ fieldRecords field) []

/-- The type expression of a `TypeSpec`: either a struct literal
(`*ast.StructType`, carrying its field list) or anything else
(identifier, interface, function type, ...). -/
inductive TypeExpr where
  | structType (fields : List FieldNode)
  | otherType
deriving DecidableEq

mutual
/-- A declaration as seen by `ast.Inspect`: a `type` declaration carrying
its `TypeSpec`s (name and type expression, in source order), a function
declaration whose body may hold further declarations (which
`ast.Inspect` traverses), or any other declaration. -/
inductive Decl where
  | typeDecl (specs : List (String × TypeExpr))
  | funcDecl (body : DeclList)
  | otherDecl
/-- A list of declarations in source order (mutually inductive with
`Decl` so that the traversal functions recurse structurally). -/
inductive DeclList where
  | nil
  | cons (d : Decl) (ds : DeclList)
end

/-- Conversion from an ordinary list of declarations. -/
def DeclList.ofList : List Decl → DeclList
  | [] => DeclList.nil
  | d :: ds => DeclList.cons d (DeclList.ofList ds)

/-- A parsed file (`*ast.File`): its package name (`f.Name`) and its
declarations. -/
structure GoFile where
  pkgName : String
  decls : DeclList

/-- `Type` from type.go (named `TypeDef` because `Type` is reserved). -/
structure TypeDef where
  FileName : String
  Name : String
  Fields : List Field
  Package : String
deriving DecidableEq

/-- `NewType` from type.go: fresh instance with only `Name` set. -/
def NewType (name : String) : TypeDef :=
  { FileName := "", Name := name, Fields := [], Package := "" }

/-- `getStruct` from type.go: the struct's field list when the node is an
`*ast.StructType`, `none` otherwise. -/
def getStruct : TypeExpr → Option (List FieldNode)
  | TypeExpr.structType fields => some fields
  | TypeExpr.otherType => none

/-- The `ast.Inspect` callback's action at one `*ast.TypeSpec` node: when
the spec's type is a struct whose name equals `t.Name`, assign `Package`
and `Fields`; otherwise leave the state unchanged.  (On a match the Go
callback returns `false`, which only prunes the matched node's children —
none of which is a `TypeSpec` — so traversal continues either way.) -/
def visitSpec (pkg : String) (t : TypeDef) (spec : String × TypeExpr) : TypeDef :=
  match getStruct spec.2 with
  | some node =>
      if t.Name = spec.1 then { t with Package := pkg, Fields := getFields node } else t
  | none => t

/-- Traversal of the `TypeSpec`s of one `type` declaration, in order. -/
def visitSpecs (pkg : String) (t : TypeDef) : List (String × TypeExpr) → TypeDef
  | [] => t
  | s :: rest => visitSpecs pkg (visitSpec pkg t s) rest

mutual
/-- `ast.Inspect`'s visit of one declaration, threading the mutated
receiver `t`. -/
def inspectDecl (pkg : String) (t : TypeDef) : Decl → TypeDef
  | Decl.typeDecl specs => visitSpecs pkg t specs
  | Decl.funcDecl body => inspectDecls pkg t body
  | Decl.otherDecl => t
/-- `ast.Inspect`'s visit of a declaration list, in order. -/
def inspectDecls (pkg : String) (t : TypeDef) : DeclList → TypeDef
  | DeclList.nil => t
  | DeclList.cons d ds => inspectDecls pkg (inspectDecl pkg t d) ds
end

/-- Outcome of the load stage of `Parse`: `ioutil.ReadFile` fails,
`parser.ParseFile` fails (the Go `SyntaxError` case), or a parsed file. -/
inductive ParseOutcome where
  | ioError (msg : String)
  | parseError (msg : String)
  | ok (f : GoFile)

/-- `Parse` from type.go.  `t.FileName = fileName` is assigned first; then
the file is read and parsed (abstracted by `loaded`); on either failure the
error is returned with no further mutation; on success `ast.Inspect` runs
the search.  The result is the mutated receiver paired with the returned
error. -/
def Parse (t : TypeDef) (fileName : String) (loaded : ParseOutcome) :
    TypeDef × Option String :=
  let t1 := { t with FileName := fileName }
  match loaded with
  | ParseOutcome.ioError msg => (t1, some msg)
  | ParseOutcome.parseError msg => (t1, some msg)
  | ParseOutcome.ok f => (inspectDecls f.pkgName t1 f.decls, none)

/-- Field lists of the struct `TypeSpec`s of one `type` declaration whose
name equals `name`, in source order (specification-side companion of
`visitSpecs`). -/
def specMatches (name : String) : List (String × TypeExpr) → List (List FieldNode)
  | [] => []
  | s :: rest =>
    match getStruct s.2 with
    | some node =>
        if name = s.1 then node :: specMatches name rest else specMatches name rest
    | none => specMatches name rest

mutual
/-- Field lists of all matching struct `TypeSpec`s inside one declaration,
in traversal order. -/
def declMatches (name : String) : Decl → List (List FieldNode)
  | Decl.typeDecl specs => specMatches name specs
  | Decl.funcDecl body => declsMatches name body
  | Decl.otherDecl => []
/-- Field lists of all matching struct `TypeSpec`s of a declaration list,
in traversal order. -/
def declsMatches (name : String) : DeclList → List (List FieldNode)
  | DeclList.nil => []
  | DeclList.cons d ds => declMatches name d ++ declsMatches name ds
end

/-- Applying the callback's assignment once per collected match, in order:
the specification-side replay of the traversal's effect on the state. -/
def applyMatches (pkg : String) (t : TypeDef) : List (List FieldNode) → TypeDef
  | [] => t
  | fs :: rest => applyMatches pkg { t with Package := pkg, Fields := getFields fs } rest

/-- AST of the legal Go file
`package main; type X struct { A int }; func f() { type X struct { B string } }`
(the second `X` is a local type declaration inside the function body). -/
def fileShadowedX : GoFile :=
  { pkgName := "main",
    decls := DeclList.ofList
      [Decl.typeDecl [("X", TypeExpr.structType [⟨["A"], "int", []⟩])],
       Decl.funcDecl (DeclList.ofList
         [Decl.typeDecl [("X", TypeExpr.structType [⟨["B"], "string", []⟩])]])] }

/-- AST of `package config; type Y struct { A int }`. -/
def fileOnlyY : GoFile :=
  { pkgName := "config",
    decls := DeclList.ofList
      [Decl.typeDecl [("Y", TypeExpr.structType [⟨["A"], "int", []⟩])]] }

/-- AST of `package main; func f() { type X struct { A int } }`: the only
struct named `X` lives inside a function body. -/
def fileNestedOnlyX : GoFile :=
  { pkgName := "main",
    decls := DeclList.ofList
      [Decl.funcDecl (DeclList.ofList
        [Decl.typeDecl [("X", TypeExpr.structType [⟨["A"], "int", []⟩])]])] }

theorem typeDefEq {a b : TypeDef} (h1 : a.FileName = b.FileName)
    (h2 : a.Name = b.Name) (h3 : a.Fields = b.Fields) (h4 : a.Package = b.Package) :
    a = b := by
  cases a; cases b; simp_all

theorem visitSpec_Name (pkg : String) (t : TypeDef) (s : String × TypeExpr) :
    (visitSpec pkg t s).Name = t.Name := by
  rcases h : getStruct s.2 with _ | node <;> simp [visitSpec, h]
  split <;> rfl

theorem applyMatches_Name (pkg : String) :
    ∀ (ms : List (List FieldNode)) (t : TypeDef), (applyMatches pkg t ms).Name = t.Name := by
  intro ms
  induction ms with
  | nil => intro t; rfl
  | cons m rest ih => intro t; exact ih _

theorem applyMatches_FileName (pkg : String) :
    ∀ (ms : List (List FieldNode)) (t : TypeDef),
      (applyMatches pkg t ms).FileName = t.FileName := by
  intro ms
  induction ms with
  | nil => intro t; rfl
  | cons m rest ih => intro t; exact ih _

theorem applyMatches_Fields (pkg : String) :
    ∀ (ms : List (List FieldNode)) (t : TypeDef),
      (applyMatches pkg t ms).Fields = ((ms.getLast?).map getFields).getD t.Fields := by
  intro ms
  induction ms with
  | nil => intro t; rfl
  | cons m rest ih =>
    intro t
    cases rest with
    | nil => simp [applyMatches]
    | cons m2 r2 =>
      rw [show applyMatches pkg t (m :: m2 :: r2)
            = applyMatches pkg { t with Package := pkg, Fields := getFields m } (m2 :: r2)
          from rfl]
      rw [ih, List.getLast?_cons_cons]
      cases hl : (m2 :: r2).getLast? with
      | none => simp at hl
      | some x => simp

theorem applyMatches_Package (pkg : String) :
    ∀ (ms : List (List FieldNode)) (t : TypeDef),
      (applyMatches pkg t ms).Package = if ms = [] then t.Package else pkg := by
  intro ms
  induction ms with
  | nil => intro t; rfl
  | cons m rest ih =>
    intro t
    rw [show applyMatches pkg t (m :: rest)
          = applyMatches pkg { t with Package := pkg, Fields := getFields m } rest
        from rfl]
    rw [ih]
    cases rest <;> simp

theorem applyMatches_append (pkg : String) :
    ∀ (ms1 ms2 : List (List FieldNode)) (t : TypeDef),
      applyMatches pkg t (ms1 ++ ms2) = applyMatches pkg (applyMatches pkg t ms1) ms2 := by
  intro ms1
  induction ms1 with
  | nil => intro ms2 t; rfl
  | cons m rest ih => intro ms2 t; exact ih ms2 _

theorem visitSpecs_eq (pkg : String) :
    ∀ (specs : List (String × TypeExpr)) (t : TypeDef),
      visitSpecs pkg t specs = applyMatches pkg t (specMatches t.Name specs) := by
  intro specs
  induction specs with
  | nil => intro t; rfl
  | cons s rest ih =>
    intro t
    rw [show visitSpecs pkg t (s :: rest) = visitSpecs pkg (visitSpec pkg t s) rest from rfl]
    rw [ih (visitSpec pkg t s), visitSpec_Name]
    rcases h : getStruct s.2 with _ | node
    · simp [specMatches, h, visitSpec]
    · by_cases hn : t.Name = s.1
      · simp [specMatches, h, hn, visitSpec, applyMatches]
      · simp [specMatches, h, hn, visitSpec]

mutual
theorem inspectDecl_eq (pkg : String) (t : TypeDef) (d : Decl) :
    inspectDecl pkg t d = applyMatches pkg t (declMatches t.Name d) :=
  match d with
  | Decl.typeDecl specs => visitSpecs_eq pkg specs t
  | Decl.funcDecl body => inspectDecls_eq pkg t body
  | Decl.otherDecl => rfl
theorem inspectDecls_eq (pkg : String) (t : TypeDef) (ds : DeclList) :
    inspectDecls pkg t ds = applyMatches pkg t (declsMatches t.Name ds) :=
  match ds with
  | DeclList.nil => rfl
  | DeclList.cons d rest => by
    rw [show inspectDecls pkg t (DeclList.cons d rest)
          = inspectDecls pkg (inspectDecl pkg t d) rest from rfl]
    rw [inspectDecl_eq pkg t d]
    rw [inspectDecls_eq pkg (applyMatches pkg t (declMatches t.Name d)) rest]
    rw [applyMatches_Name]
    rw [show declsMatches t.Name (DeclList.cons d rest)
          = declMatches t.Name d ++ declsMatches t.Name rest from rfl]
    rw [applyMatches_append]
end

theorem applyMatches_idem (pkg : String) (ms : List (List FieldNode)) (t : TypeDef) :
    applyMatches pkg (applyMatches pkg t ms) ms = applyMatches pkg t ms := by
  apply typeDefEq
  · rw [applyMatches_FileName]
  · rw [applyMatches_Name]
  · rw [applyMatches_Fields, applyMatches_Fields]
    cases hl : ms.getLast? with
    | none => simp
    | some m => simp
  · rw [applyMatches_Package, applyMatches_Package]
    cases ms <;> simp

theorem getFields_acc :
    ∀ (node : List FieldNode) (acc : List Field),
      node.foldl (fun fields field => fields ++ fieldRecords field) acc
        = acc ++ node.flatMap fieldRecords := by
  intro node
  induction node with
  | nil => intro acc; simp
  | cons fn rest ih => intro acc; simp [List.foldl_cons, ih, List.flatMap_cons]

theorem getFields_eq_flatMap (node : List FieldNode) :
    getFields node = node.flatMap fieldRecords := by
  have := getFields_acc node []
  simpa [getFields] using this

theorem fieldRecords_shape (fn : FieldNode) (f : Field) (h : f ∈ fieldRecords fn) :
    f.Typ = cleanTypeStr fn.typeStr ∧ f.IsPointer = isPointer fn.typeStr ∧
      f.IsArray = isArray fn.typeStr := by
  unfold fieldRecords at h
  cases he : fn.names.isEmpty with
  | true =>
    rw [he] at h
    simp at h
    subst h
    exact ⟨rfl, rfl, rfl⟩
  | false =>
    rw [he] at h
    simp at h
    obtain ⟨n, hn, hrec⟩ := h
    subst hrec
    exact ⟨rfl, rfl, rfl⟩

theorem dropWhileEqSelf (p : Char → Bool) (s : List Char)
    (h : ∀ c ∈ s, p c = false) : s.dropWhile p = s := by
  cases s with
  | nil => rfl
  | cons c cs => simp [List.dropWhile_cons, h c (by simp)]

theorem trimSpaceCharsEqSelf (s : List Char)
    (h : ∀ c ∈ s, isSpaceGo c = false) : trimSpaceChars s = s := by
  unfold trimSpaceChars
  rw [dropWhileEqSelf _ s h]
  rw [dropWhileEqSelf _ s.reverse (by intro c hc; exact h c (List.mem_reverse.mp hc))]
  exact List.reverse_reverse s

theorem isPointerFalseOfHead (s : String) (c : Char) (rest : List Char)
    (h : s.data = c :: rest) (hc : c ≠ '*') : isPointer s = false := by
  unfold isPointer
  rw [h]
  simp [hc]

/-- Claim C1 as stated is false at the field type `*[]byte`: the produced
record's cleaned `Typ` is `"byte"`, not `"[]byte"`.  `strings.TrimLeft`
strips ALL leading characters of its cutset, so after the `*` is removed
the `[` and `]` of the slice marker are removed as well — the inner marker
does not survive the clean. -/
theorem c1_counterexample :
    (getFields [⟨["Data"], "*[]byte", []⟩]).map Field.Typ = ["byte"]
      ∧ ("byte" : String) ≠ "[]byte" := by decide

/-- Claim C1 (amended): for every field whose rendered declared type
string is `*[]byte`, every produced record has `IsPointer = true` and
`IsArray = false` (both computed from the unstripped string, which starts
with `*`, not `[]`) and cleaned `Typ = "byte"`: cleaning trims surrounding
whitespace, then all leading `*` characters, then all leading `[` or `]`
characters — a cutset trim, not a strip of one marker. -/
theorem c1_pointer_slice_clean (fn : FieldNode) (h : fn.typeStr = "*[]byte") :
    ∀ f ∈ fieldRecords fn,
      f.IsPointer = true ∧ f.IsArray = false ∧ f.Typ = "byte" := by
  intro f hf
  obtain ⟨hT, hP, hA⟩ := fieldRecords_shape fn f hf
  rw [h] at hT hP hA
  exact ⟨by rw [hP]; decide, by rw [hA]; decide, by rw [hT]; decide⟩

/-- Witness for C1 at the concrete field `Data *[]byte`. -/
theorem c1_witness :
    (⟨"Data", "byte", "DATA", true, false⟩ : Field).IsPointer = true
    ∧ (⟨"Data", "byte", "DATA", true, false⟩ : Field).IsArray = false
    ∧ (⟨"Data", "byte", "DATA", true, false⟩ : Field).Typ = "byte" :=
  c1_pointer_slice_clean ⟨["Data"], "*[]byte", []⟩ rfl _ (by decide)

/-- Claim C2 as stated is false: a match does not terminate the traversal.
In the legal file `package main; type X struct { A int };
func f() { type X struct { B string } }` the local `X` inside the
function body is scanned after the top-level match and overwrites
`Fields`, so the final `Fields` are those of the LATER declaration. -/
theorem c2_counterexample :
    (Parse (NewType "X") "a.go" (ParseOutcome.ok fileShadowedX)).1.Fields
        = getFields [⟨["B"], "string", []⟩]
      ∧ (Parse (NewType "X") "a.go" (ParseOutcome.ok fileShadowedX)).1.Fields
        ≠ getFields [⟨["A"], "int", []⟩] := by decide

/-- Claim C2 (amended): every structural type whose declared identifier
equals the requested `Name` (at any nesting depth, in traversal order)
re-assigns `Package` and `Fields` as it is visited; the callback's `false`
return only prunes the matched node's children, so traversal continues
and the LAST matching type determines the final `Fields`, while `Package`
is the package name iff at least one type matches. -/
theorem c2_last_match_wins (t : TypeDef) (fileName : String) (f : GoFile) :
    (Parse t fileName (ParseOutcome.ok f)).1.Fields
        = (((declsMatches t.Name f.decls).getLast?).map getFields).getD t.Fields
      ∧ (Parse t fileName (ParseOutcome.ok f)).1.Package
        = (if declsMatches t.Name f.decls = [] then t.Package else f.pkgName) := by
  have h1 : (Parse t fileName (ParseOutcome.ok f)).1
      = inspectDecls f.pkgName { t with FileName := fileName } f.decls := rfl
  rw [h1, inspectDecls_eq]
  exact ⟨by rw [applyMatches_Fields], by rw [applyMatches_Package]⟩

/-- Claim C3: when a successfully parsed file contains no structural type
whose name equals the requested `name` (no match anywhere in the
traversal), `Parse` on a fresh instance returns nil error and leaves
`Package` as the empty string and `Fields` empty — absence of a match is
not an error. -/
theorem c3_no_match_silent (name fileName : String) (f : GoFile)
    (h : declsMatches name f.decls = []) :
    Parse (NewType name) fileName (ParseOutcome.ok f)
      = ({ FileName := fileName, Name := name, Fields := [], Package := "" }, none) := by
  have h1 : Parse (NewType name) fileName (ParseOutcome.ok f)
      = (inspectDecls f.pkgName
          { FileName := fileName, Name := name, Fields := [], Package := "" } f.decls, none) := rfl
  rw [h1, inspectDecls_eq]
  have h2 : declsMatches
      ({ FileName := fileName, Name := name, Fields := [], Package := "" } : TypeDef).Name
      f.decls = [] := h
  rw [h2]
  rfl

/-- Witness for C3: a file declaring only `type Y struct { A int }`,
searched for `X`. -/
theorem c3_witness :
    declsMatches "X" fileOnlyY.decls = []
    ∧ Parse (NewType "X") "c.go" (ParseOutcome.ok fileOnlyY)
        = ({ FileName := "c.go", Name := "X", Fields := [], Package := "" }, none) :=
  ⟨by decide, c3_no_match_silent "X" "c.go" fileOnlyY (by decide)⟩

/-- Claim C4: every produced record comes from some field declaration of
the struct, its flags are computed from that field's original rendered
type string — `IsPointer` holds iff the unstripped string is non-empty
with first character `*`, `IsArray` holds iff it has length at least 3
and its first two characters are exactly `[]` — while `Typ` is the
separately cleaned string, so the cleaned type never influences the
flags. -/
theorem c4_flags_from_original (node : List FieldNode) (f : Field)
    (hf : f ∈ getFields node) :
    ∃ fn ∈ node,
      f.Typ = cleanTypeStr fn.typeStr
      ∧ (f.IsPointer = true ↔ fn.typeStr.data ≠ [] ∧ fn.typeStr.data.head? = some '*')
      ∧ (f.IsArray = true ↔ 3 ≤ fn.typeStr.data.length ∧ fn.typeStr.data.take 2 = ['[', ']']) := by
  rw [getFields_eq_flatMap] at hf
  obtain ⟨fn, hfn, hrec⟩ := List.mem_flatMap.mp hf
  obtain ⟨hT, hP, hA⟩ := fieldRecords_shape fn f hrec
  refine ⟨fn, hfn, hT, ?_, ?_⟩
  · rw [hP]; unfold isPointer
    cases fn.typeStr.data with
    | nil => simp
    | cons c cs => simp [beq_iff_eq]
  · rw [hA]; unfold isArray
    simp [Bool.and_eq_true, decide_eq_true_eq, beq_iff_eq]
    intro hlen
    omega

/-- Witness for C4 at the concrete field `Tags []string`. -/
theorem c4_witness :
    ∃ fn ∈ [(⟨["Tags"], "[]string", []⟩ : FieldNode)],
      (⟨"Tags", "string", "TAGS", false, true⟩ : Field).Typ = cleanTypeStr fn.typeStr
      ∧ ((⟨"Tags", "string", "TAGS", false, true⟩ : Field).IsPointer = true ↔
          fn.typeStr.data ≠ [] ∧ fn.typeStr.data.head? = some '*')
      ∧ ((⟨"Tags", "string", "TAGS", false, true⟩ : Field).IsArray = true ↔
          3 ≤ fn.typeStr.data.length ∧ fn.typeStr.data.take 2 = ['[', ']']) :=
  c4_flags_from_original _ _ (by decide)

/-- Claim C5: a field declaration binding N ≥ 1 names to one declared
type and one tag yields exactly the N per-name records, in name order,
all sharing `Typ`, `IsPointer` and `IsArray`, and each `EnvTag` derived
independently from that record's own name. -/
theorem c5_grouped_names (names : List String) (typ : String)
    (tag : List (String × String)) (h : names ≠ []) :
    fieldRecords ⟨names, typ, tag⟩
      = names.map (fun n =>
          { Name := n, Typ := cleanTypeStr typ, EnvTag := getEnvSourceTag tag n,
            IsPointer := isPointer typ, IsArray := isArray typ }) := by
  cases names with
  | nil => exact absurd rfl h
  | cons n ns => rfl

/-- Witness for C5: untagged `a, b string` yields exactly two records with
`Typ = "string"`, both flags false, and `EnvTag` `"A"` and `"B"`. -/
theorem c5_witness :
    fieldRecords ⟨["a", "b"], "string", []⟩
      = [⟨"a", "string", "A", false, false⟩, ⟨"b", "string", "B", false, false⟩] :=
  (c5_grouped_names ["a", "b"] "string" [] (by decide)).trans (by decide)

/-- Claim C6: when the tag annotation holds an `env` key its literal value
becomes `EnvTag` verbatim; otherwise `EnvTag` is the upper-cased fallback
key — the record's own name for named fields, and for an anonymous field
(whose record has `Name = ""`) the rendered unstripped type string. -/
theorem c6_env_tag (tags : List (String × String)) (name typ : String) :
    (∀ v, tagLookup tags "env" = some v → getEnvSourceTag tags name = v)
    ∧ (tagLookup tags "env" = none → getEnvSourceTag tags name = toUpperGo name)
    ∧ ∀ f ∈ fieldRecords ⟨[], typ, tags⟩,
        f.Name = "" ∧ f.EnvTag = getEnvSourceTag tags typ := by
  refine ⟨?_, ?_, ?_⟩
  · intro v hv; unfold getEnvSourceTag; rw [hv]
  · intro hv; unfold getEnvSourceTag; rw [hv]
  · intro f hf
    simp [fieldRecords] at hf
    subst hf
    exact ⟨rfl, rfl⟩

/-- Witness for C6: untagged name falls back to the upper-cased key, a
tagged field takes the tag value verbatim, and the untagged embedded
`io.Writer` record has `Name = ""` and `EnvTag = "IO.WRITER"`. -/
theorem c6_witness :
    getEnvSourceTag [] "io.Writer" = toUpperGo "io.Writer"
    ∧ getEnvSourceTag [("env", "CUSTOM_KEY")] "host" = "CUSTOM_KEY"
    ∧ ((⟨"", "io.Writer", "IO.WRITER", false, false⟩ : Field).Name = ""
        ∧ (⟨"", "io.Writer", "IO.WRITER", false, false⟩ : Field).EnvTag
          = getEnvSourceTag [] "io.Writer") :=
  ⟨(c6_env_tag [] "io.Writer" "t").2.1 rfl,
   (c6_env_tag [("env", "CUSTOM_KEY")] "host" "t").1 "CUSTOM_KEY" rfl,
   (c6_env_tag [] "x" "io.Writer").2.2 _ (by decide)⟩

/-- Claim C7 as stated is false: `t.FileName = fileName` is executed
before the file is read, so on a read failure the returned receiver's
`FileName` no longer equals its pre-call value (empty on a fresh
instance). -/
theorem c7_counterexample :
    (Parse (NewType "Config") "missing.go"
        (ParseOutcome.ioError "open missing.go: no such file or directory")).1.FileName
      ≠ (NewType "Config").FileName := by decide

/-- Claim C7 (amended): on either failure (unreadable file or invalid
source) the error is returned immediately and the receiver is unchanged
except for `FileName`, which is assigned the argument before the read;
in particular `Package` and `Fields` keep their pre-call values and no
field data is produced. -/
theorem c7_error_path (t : TypeDef) (fileName msg : String) (o : ParseOutcome)
    (h : o = ParseOutcome.ioError msg ∨ o = ParseOutcome.parseError msg) :
    Parse t fileName o = ({ t with FileName := fileName }, some msg) := by
  rcases h with h | h <;> rw [h]
  · rfl
  · rfl

/-- Witness for C7 at a concrete read failure. -/
theorem c7_witness :
    Parse (NewType "Config") "missing.go" (ParseOutcome.ioError "err")
      = (⟨"missing.go", "Config", [], ""⟩, some "err") :=
  (c7_error_path (NewType "Config") "missing.go" "err" _ (Or.inl rfl)).trans (by decide)

/-- Claim C8 as stated is false: non-top-level declarations ARE traversed.
In `package main; func f() { type X struct { A int } }` the only struct
named `X` is local to the function body, yet `Parse` populates
`Fields`. -/
theorem c8_counterexample :
    (Parse (NewType "X") "n.go" (ParseOutcome.ok fileNestedOnlyX)).1.Fields ≠ [] := by decide

/-- Claim C8 (amended): only type specs whose type expression is a struct
literal are considered — a spec of any other kind (alias target,
interface, function type, scalar redefinition) is skipped without
changing the state even when it bears the requested name — but
declarations nested inside function bodies are traversed exactly like
top-level ones. -/
theorem c8_only_structs (pkg : String) (t : TypeDef) (n : String) (te : TypeExpr)
    (specs : List (String × TypeExpr)) (body : DeclList)
    (h : getStruct te = none) :
    visitSpecs pkg t ((n, te) :: specs) = visitSpecs pkg t specs
    ∧ inspectDecl pkg t (Decl.funcDecl body) = inspectDecls pkg t body := by
  constructor
  · have hv : visitSpec pkg t (n, te) = t := by simp [visitSpec, h]
    rw [show visitSpecs pkg t ((n, te) :: specs)
          = visitSpecs pkg (visitSpec pkg t (n, te)) specs from rfl, hv]
  · rfl

/-- Witness for C8: a non-struct spec named `X` is skipped while searching
for `X`, and a function body is traversed as a declaration list. -/
theorem c8_witness :
    visitSpecs "main" (NewType "X") [("X", TypeExpr.otherType)]
        = visitSpecs "main" (NewType "X") []
    ∧ inspectDecl "main" (NewType "X") (Decl.funcDecl DeclList.nil)
        = inspectDecls "main" (NewType "X") DeclList.nil :=
  c8_only_structs "main" (NewType "X") "X" TypeExpr.otherType [] DeclList.nil rfl

/-- Claim C9: `Parse` is a pure function of the receiver, file content and
name (determinism is definitional), and re-running it on the receiver it
just produced yields the same receiver and the same error — parsing the
same file/name pair twice gives structurally identical results, whether
on fresh instances or in sequence on the same instance. -/
theorem c9_idempotent (t : TypeDef) (fileName : String) (o : ParseOutcome) :
    Parse (Parse t fileName o).1 fileName o = Parse t fileName o := by
  cases o with
  | ioError msg => rfl
  | parseError msg => rfl
  | ok f =>
    have hfst : (Parse t fileName (ParseOutcome.ok f)).1
        = applyMatches f.pkgName { t with FileName := fileName }
            (declsMatches t.Name f.decls) := inspectDecls_eq _ _ _
    have hFile : (Parse t fileName (ParseOutcome.ok f)).1.FileName = fileName := by
      rw [hfst, applyMatches_FileName]
    have hName : (Parse t fileName (ParseOutcome.ok f)).1.Name = t.Name := by
      rw [hfst, applyMatches_Name]
    have hupd : { (Parse t fileName (ParseOutcome.ok f)).1 with FileName := fileName }
        = (Parse t fileName (ParseOutcome.ok f)).1 :=
      typeDefEq (by rw [hFile]) rfl rfl rfl
    calc Parse (Parse t fileName (ParseOutcome.ok f)).1 fileName (ParseOutcome.ok f)
        = (inspectDecls f.pkgName
            { (Parse t fileName (ParseOutcome.ok f)).1 with FileName := fileName }
            f.decls, none) := rfl
      _ = (inspectDecls f.pkgName (Parse t fileName (ParseOutcome.ok f)).1 f.decls, none) := by
            rw [hupd]
      _ = (applyMatches f.pkgName (Parse t fileName (ParseOutcome.ok f)).1
            (declsMatches t.Name f.decls), none) := by
            rw [inspectDecls_eq, hName]
      _ = (applyMatches f.pkgName
            (applyMatches f.pkgName { t with FileName := fileName }
              (declsMatches t.Name f.decls))
            (declsMatches t.Name f.decls), none) := by rw [hfst]
      _ = (applyMatches f.pkgName { t with FileName := fileName }
            (declsMatches t.Name f.decls), none) := by rw [applyMatches_idem]
      _ = (inspectDecls f.pkgName { t with FileName := fileName } f.decls, none) := by
            rw [inspectDecls_eq]
      _ = Parse t fileName (ParseOutcome.ok f) := rfl

/-- Claim C10: a fixed-size-array type string such as `[5]int` — first
character `[`, second character neither `]` nor `[`, no white space —
produces records with `IsArray = false` (the two-character prefix is not
exactly `[]`), `IsPointer = false`, and a cleaned `Typ` with the leading
`[` removed (the cutset trim removes `[` and `]` characters from the
left, stopping at the first other character): `[5]int` cleans to
`5]int`. -/
theorem c10_fixed_array (c : Char) (rest : List Char) (fn : FieldNode)
    (h : fn.typeStr.data = '[' :: c :: rest)
    (hc1 : c ≠ '[') (hc2 : c ≠ ']')
    (hs : ∀ ch ∈ fn.typeStr.data, isSpaceGo ch = false) :
    ∀ f ∈ fieldRecords fn,
      f.IsArray = false ∧ f.IsPointer = false ∧ f.Typ = String.mk (c :: rest) := by
  intro f hf
  obtain ⟨hT, hP, hA⟩ := fieldRecords_shape fn f hf
  refine ⟨?_, ?_, ?_⟩
  · rw [hA]; unfold isArray
    rw [h]
    have ht : ('[' :: c :: rest).take 2 = ['[', c] := rfl
    rw [ht]
    simp [hc2]
  · rw [hP]
    exact isPointerFalseOfHead fn.typeStr '[' (c :: rest) h (by decide)
  · rw [hT]
    unfold cleanTypeStr
    rw [trimSpaceCharsEqSelf fn.typeStr.data hs, h]
    have h1 : trimLeftCutset ['*'] ('[' :: c :: rest) = '[' :: c :: rest := rfl
    rw [h1]
    unfold trimLeftCutset
    simp [List.dropWhile_cons, hc1, hc2]

/-- Witness for C10 at the concrete field `Arr [5]int`. -/
theorem c10_witness :
    (⟨"Arr", "5]int", "ARR", false, false⟩ : Field).IsArray = false
    ∧ (⟨"Arr", "5]int", "ARR", false, false⟩ : Field).IsPointer = false
    ∧ (⟨"Arr", "5]int", "ARR", false, false⟩ : Field).Typ = String.mk ['5', ']', 'i', 'n', 't'] :=
  c10_fixed_array '5' [']', 'i', 'n', 't'] ⟨["Arr"], "[5]int", []⟩ rfl
    (by decide) (by decide) (by decide) _ (by decide)

end GoEnvParser
